import Mathlib

/-!
Shallow embedding of the idle-game core of this repository
(`game-config.js` together with the `GameCore` class): the tier tables and
`getTier`, the progression formulas (`requiredExp`, `checkLevelUp`, the
upgrade-cost curves), `upgradeMold`/`upgradeLuck`, the sell-area queue
(`processSellArea`), the combat loop (`fightEnemy`) and the item pricing of
`itemGen`/`getRarityCostScaling`.

Conventions of the embedding:
* JavaScript numbers that only ever hold integers are `Nat` (levels, ids,
  thresholds, rolls); money, experience, prices and stat values are `ℚ`.
* `Math.floor(100 * Math.pow(L, 1.05))` and the `Math.round(Math.pow(L, e))`
  upgrade-cost formulas are computed exactly over the integers through an
  integer n-th root (`inthRoot`); the exponents 1.05, 1.9, 2.1 and 2.4 are
  21/20, 19/10, 21/10 and 12/5.
* the unbounded `while` loops of `checkLevelUp` and `fightEnemy` take an
  explicit fuel argument; fuel lemmas show the bound chosen is enough.
* the non-finite values JavaScript division can produce (`5/0 = Infinity`,
  `0/0 = NaN`) are modelled by `JsNum`.
-/

/- `Rat.add`, `Rat.sub`, `Rat.mul`, `Rat.inv` and `Rat.ofScientific` carry
`@[irreducible]` upstream, which blocks `decide`-evaluation of concrete
rational arithmetic; restore the usual reducibility (this affects
elaboration only — kernel checking is unchanged). -/
set_option allowUnsafeReducibility true in
attribute [semireducible] Rat.add Rat.sub Rat.mul Rat.inv Rat.ofScientific

/-- One row of a tier table: `(name, cumulative threshold, ...multipliers)`.
The numeric multiplier columns after the threshold are kept as a list,
mirroring the positional tuples of `game-config.js` (`tier.slice(2)`). -/
structure TierRow where
  name : String
  threshold : Nat
  values : List ℚ
deriving DecidableEq, Repr

/-- Result object of `getTier`. -/
structure TierResult where
  tier : String
  rng_roll : Nat
  range_start : Nat
  range_end : Nat
  values : List ℚ
deriving DecidableEq, Repr

/-- `const MAXIMUM_VALUE = Math.pow(10, 20)` (exactly representable). -/
def MAXIMUM_VALUE : Nat := 10 ^ 20

/-- `RARITY_TIERS` of `game-config.js`: `(Name, Threshold, Price multiplier,
Damage multiplier, EXP multiplier)`.  Thresholds are
`Math.floor(MAXIMUM_VALUE / d)`, computed here by exact natural division
(`MAXIMUM_VALUE / 1.5` is `⌊2·10^20 / 3⌋`); the doubles of the source round
a few of these to a nearby integer, which no claim depends on. -/
def RARITY_TIERS : List TierRow := [
  ⟨"Zenith", MAXIMUM_VALUE / 20000000, [10000, 500, 100]⟩,
  ⟨"Universal", MAXIMUM_VALUE / 950000, [4000, 200, 50]⟩,
  ⟨"Cosmic", MAXIMUM_VALUE / 650000, [1000, 150, 20]⟩,
  ⟨"Divine", MAXIMUM_VALUE / 400000, [750, 100, 13]⟩,
  ⟨"Mythical+2", MAXIMUM_VALUE / 120000, [500, 80, 10]⟩,
  ⟨"Mythical+1", MAXIMUM_VALUE / 70000, [550, 65, 7.75]⟩,
  ⟨"Mythical", MAXIMUM_VALUE / 25000, [300, 40, 6]⟩,
  ⟨"Legendary+2", MAXIMUM_VALUE / 10000, [100, 27.25, 4.5]⟩,
  ⟨"Legendary+1", MAXIMUM_VALUE / 5000, [75, 20, 4]⟩,
  ⟨"Legendary", MAXIMUM_VALUE / 1250, [50, 15, 3.25]⟩,
  ⟨"Epic+2", MAXIMUM_VALUE / 700, [35, 26, 2.5]⟩,
  ⟨"Epic+1", MAXIMUM_VALUE / 275, [25, 20.25, 2.25]⟩,
  ⟨"Epic", MAXIMUM_VALUE / 150, [17.75, 15, 2.1]⟩,
  ⟨"Rare+2", MAXIMUM_VALUE / 100, [10, 10, 1.8]⟩,
  ⟨"Rare+1", MAXIMUM_VALUE / 50, [8.6, 6.5, 1.65]⟩,
  ⟨"Rare", MAXIMUM_VALUE / 45, [7, 4, 1.5]⟩,
  ⟨"Uncommon+2", MAXIMUM_VALUE / 20, [5.5, 2, 1.2]⟩,
  ⟨"Uncommon+1", MAXIMUM_VALUE / 10, [4.2, 1.7, 1.15]⟩,
  ⟨"Uncommon", MAXIMUM_VALUE / 6, [3.75, 1.5, 1.1]⟩,
  ⟨"Common+2", MAXIMUM_VALUE / 2, [2, 1.25, 1.05]⟩,
  ⟨"Common+1", 2 * MAXIMUM_VALUE / 3, [1.875, 1.1, 1.03]⟩,
  ⟨"Common", MAXIMUM_VALUE / 1, [1.5, 1, 1]⟩]

/-- `MOLD_TIERS` of `game-config.js`: `(Name, Threshold, Price multiplier,
EXP multiplier)`. -/
def MOLD_TIERS : List TierRow := [
  ⟨"Heavenly", MAXIMUM_VALUE / 1250000, [625, 350]⟩,
  ⟨"Hallowed", MAXIMUM_VALUE / 500000, [200, 120]⟩,
  ⟨"Onyx", MAXIMUM_VALUE / 90000, [90, 50]⟩,
  ⟨"Diamond", MAXIMUM_VALUE / 25000, [50, 20]⟩,
  ⟨"Amethyst", MAXIMUM_VALUE / 5000, [15, 9.5]⟩,
  ⟨"Gold", MAXIMUM_VALUE / 750, [9, 6]⟩,
  ⟨"Silver", MAXIMUM_VALUE / 100, [5, 3.5]⟩,
  ⟨"Iron", MAXIMUM_VALUE / 20, [3, 2]⟩,
  ⟨"Bronze", MAXIMUM_VALUE / 5, [1.75, 1.5]⟩,
  ⟨"Copper", MAXIMUM_VALUE / 1, [1.2, 1.2]⟩]

/-- One row of `WEAPON_TYPES`: `("Type", ID, Base Damage, Base Defense,
Mold Level Required)`. -/
structure WeaponRow where
  type : String
  id : Nat
  baseDamage : ℚ
  baseDefense : ℚ
  moldLevelRequired : Nat
deriving DecidableEq, Repr

/-- `WEAPON_TYPES` of `game-config.js`. -/
def WEAPON_TYPES : List WeaponRow := [
  ⟨"Sword", 1, 4, 10, 0⟩,
  ⟨"Sniper", 2, 20, 5, 10⟩,
  ⟨"Bomb", 3, 10, 6, 20⟩,
  ⟨"Molotov", 4, 10, 6, 50⟩,
  ⟨"Car", 5, 10, 6, 50⟩,
  ⟨"Scythe", 6, 10, 6, 100⟩,
  ⟨"Train", 7, 10, 6, 100⟩,
  ⟨"Lance", 8, 10, 6, 250⟩]

/-- Scan of `getTier`'s `for` loop: the running `prev` argument is the
previous row's threshold (`i > 0 ? tiers[i-1][1] : 0`); the first row with
`prev < roll && roll <= threshold` is returned. -/
def getTierAux (roll : Nat) : Nat → List TierRow → Option TierResult
  | _, [] => none
  | prev, t :: rest =>
    if prev < roll ∧ roll ≤ t.threshold then
      some ⟨t.name, roll, prev, t.threshold, t.values⟩
    else
      getTierAux roll t.threshold rest

/-- `getTier(roll, tiers, luckMultiplier)` of `game-config.js`.  The
`luckMultiplier` parameter is dead in the source (it only feeds the unused
local `totalRange`) and is kept here for the record.  When no row matches,
the source falls back to the last (lowest-rarity) row, with `range_start`
taken from the second-to-last row; an empty table would throw in
JavaScript, modelled by `none`. -/
def getTier (roll : Nat) (tiers : List TierRow) (luckMultiplier : ℚ) :
    Option TierResult :=
  let _ := luckMultiplier
  match getTierAux roll 0 tiers with
  | some r => some r
  | none =>
    match tiers.getLast? with
    | none => none
    | some lastTier =>
      let start := if 1 < tiers.length then
        ((tiers.take (tiers.length - 1)).getLast?.map (·.threshold)).getD 0
      else 0
      some ⟨lastTier.name, roll, start, lastTier.threshold, lastTier.values⟩

/-- Total version of `getTier` for the concrete (nonempty) tables. -/
def getTierD (roll : Nat) (tiers : List TierRow) (luckMultiplier : ℚ) :
    TierResult :=
  (getTier roll tiers luckMultiplier).getD ⟨"", 0, 0, 0, []⟩

/-- Binary search of the integer n-th root: on `[lo, hi)` with the invariant
`lo^n ≤ N < hi^n`, halve until `hi = lo + 1`. -/
def inthRootGo (n N : Nat) : Nat → Nat → Nat → Nat
  | 0, lo, _ => lo
  | fuel + 1, lo, hi =>
    if hi ≤ lo + 1 then lo
    else
      let mid := (lo + hi) / 2
      if mid ^ n ≤ N then inthRootGo n N fuel mid hi
      else inthRootGo n N fuel lo mid

/-- Largest `k` with `k^n ≤ N` (for `0 < n`). -/
def inthRoot (n N : Nat) : Nat := inthRootGo n N (N + 2) 0 (N + 2)

theorem inthRootGo_spec (n N : Nat) (fuel lo hi : Nat)
    (hlo : lo ^ n ≤ N) (hhi : N < hi ^ n) (hlt : lo < hi)
    (hfuel : hi ≤ lo + fuel) :
    (inthRootGo n N fuel lo hi) ^ n ≤ N ∧
      N < (inthRootGo n N fuel lo hi + 1) ^ n := by
  induction fuel generalizing lo hi with
  | zero => omega
  | succ fuel ih =>
    rw [inthRootGo]
    by_cases hnarrow : hi ≤ lo + 1
    · have : hi = lo + 1 := by omega
      simp only [if_pos hnarrow]
      exact ⟨hlo, this ▸ hhi⟩
    · simp only [if_neg hnarrow]
      set mid := (lo + hi) / 2 with hmid
      have h1 : lo < mid := by omega
      have h2 : mid < hi := by omega
      by_cases hcmp : mid ^ n ≤ N
      · simp only [if_pos hcmp]
        exact ih mid hi hcmp hhi h2 (by omega)
      · simp only [if_neg hcmp]
        exact ih lo mid hlo (by omega) h1 (by omega)

theorem inthRoot_spec (n N : Nat) (hn : 0 < n) :
    (inthRoot n N) ^ n ≤ N ∧ N < (inthRoot n N + 1) ^ n := by
  have h0 : (0 : Nat) ^ n ≤ N := by
    rw [Nat.zero_pow hn]
    exact Nat.zero_le N
  have h2 : N < (N + 2) ^ n := by
    calc N < N + 2 := by omega
    _ ≤ (N + 2) ^ n := Nat.le_self_pow (by omega) _
  exact inthRootGo_spec n N (N + 2) 0 (N + 2) h0 h2 (by omega) (by omega)

theorem inthRoot_unique (n N k : Nat) (hn : 0 < n)
    (h1 : k ^ n ≤ N) (h2 : N < (k + 1) ^ n) : inthRoot n N = k := by
  have hs := inthRoot_spec n N hn
  by_contra hne
  rcases Nat.lt_or_ge (inthRoot n N) k with h | h
  · have : (inthRoot n N + 1) ^ n ≤ k ^ n := Nat.pow_le_pow_left (by omega) n
    omega
  · have hk : k < inthRoot n N := by omega
    have : (k + 1) ^ n ≤ (inthRoot n N) ^ n := Nat.pow_le_pow_left (by omega) n
    omega

/-- `Math.round(Math.pow(level, p/q))` computed exactly over the integers:
for `x ≥ 0`, `Math.round(x) = ⌊x + 1/2⌋ = ⌊(⌊2x⌋ + 1) / 2⌋`, and
`⌊2·level^(p/q)⌋` is the largest `k` with `k^q ≤ 2^q·level^p`. -/
def roundPow (q p level : Nat) : Nat := (inthRoot q (2 ^ q * level ^ p) + 1) / 2

/-- `requiredExp(level) = Math.floor(baseExp * Math.pow(level, 1.05))` with
`baseExp = 100`, computed exactly: `⌊100·L^(21/20)⌋` is the largest `k`
with `k^20 ≤ 100^20·L^21`. -/
def requiredExp (level : Nat) : Nat := inthRoot 20 (100 ^ 20 * level ^ 21)

/-- Per-level mold upgrade cost `Math.round(Math.pow(level, 1.9)) + 3`, the
formula shared by `recalculate` and `upgradeMold`'s totalCost/deduction
loops. -/
def mold_cost_formula (level : Nat) : Nat := roundPow 10 19 level + 3

/-- Per-level luck cost `Math.round(Math.pow(tempLevel, 2.1)) + 4` as used
inside `upgradeLuck` (both its totalCost loop and the cost stored after
each bought level). -/
def luck_cost_formula (level : Nat) : Nat := roundPow 10 21 level + 4

/-- Luck cost `Math.round(Math.pow(luck_level, 2.4)) + 5` as computed by
`recalculate` (note: a different exponent and offset than the one
`upgradeLuck` itself uses). -/
def luck_cost_recalc (level : Nat) : Nat := roundPow 5 12 level + 5


/-- An item, as built by `itemGen`/`enemyLoot`. -/
structure Item where
  ID : Nat
  RNG : ℚ
  Mold : String
  Rarity : String
  Price : ℚ
  Weapon : String
  Damage : ℚ
  Defense : ℚ
deriving DecidableEq, Repr

/-- One sell-area entry: `{item, time_added, timer}`. -/
structure SellEntry where
  item : Item
  time_added : ℚ
  timer : ℚ
deriving DecidableEq, Repr

/-- An enemy stat block, with the fields `fightEnemy`/`enemyLoot` read. -/
structure Enemy where
  name : String
  Elite : Bool
  health : ℚ
  damage : ℚ
  exp : ℚ
  cash : ℚ
  RNG : ℚ
deriving DecidableEq, Repr

/-- The mutable fields of `GameCore` that the modelled operations touch.
The derived display multipliers (`luck_multiplier`, `mold_mult`,
`enemy_luck_multiplier`, `player_luck_multiplier`) recomputed by
`updateLuckMult` from the levels through a float log/power curve are left
out: no operation modelled here reads them, so `updateLuckMult` acts as the
identity on this record.  `spawned_enemies` is the per-area enemy map. -/
structure GameState where
  level : Nat
  exp : ℚ
  equipped : Option Item
  money : ℚ
  item_storage : List Item
  recycled_ids : List Nat
  mold_level : Nat
  luck_level : Nat
  mold_cost : Nat
  luck_cost : Nat
  item_id_counter : Nat
  sell_area : List SellEntry
  spawned_enemies : String → List Enemy

/-- `recalculate()`: refresh the stored upgrade costs from the levels
(then `updateLuckMult`, the identity here).  Note the luck cost uses the
2.4 exponent and offset 5, unlike `upgradeLuck`'s own 2.1 and 4. -/
def recalculate (s : GameState) : GameState :=
  { s with
    mold_cost := mold_cost_formula s.mold_level,
    luck_cost := luck_cost_recalc s.luck_level }

/-- The state built by the `GameCore` constructor (which ends by calling
`recalculate`). -/
def freshGameState : GameState :=
  recalculate
    { level := 1, exp := 0, equipped := none, money := 0,
      item_storage := [], recycled_ids := [], mold_level := 1,
      luck_level := 1, mold_cost := 3, luck_cost := 4,
      item_id_counter := 0, sell_area := [], spawned_enemies := fun _ => [] }

/-- The `while (exp >= requiredExp(level))` loop of `checkLevelUp`, with an
explicit fuel: each pass subtracts the requirement, increments the level
and counts one level gained. -/
def levelUpGo : Nat → Nat → ℚ → Nat → Nat × ℚ × Nat
  | 0, level, e, gained => (level, e, gained)
  | fuel + 1, level, e, gained =>
    if (requiredExp level : ℚ) ≤ e then
      levelUpGo fuel (level + 1) (e - requiredExp level) (gained + 1)
    else (level, e, gained)

/-- Fuel for `levelUpGo`: each pass lowers `exp` by at least 1 (the
requirement is ≥ 100 from level ≥ 1), so any natural above `exp` is
enough. -/
def levelUpFuel (e : ℚ) : Nat := (⌊e⌋).toNat + 1

/-- `checkLevelUp()`: resolve pending level-ups eagerly, returning the
updated state and `levelsGained` (`updateLuckMult` is called when any
level was gained; it is the identity on this record). -/
def checkLevelUp (s : GameState) : GameState × Nat :=
  ({ s with
      level := (levelUpGo (levelUpFuel s.exp) s.level s.exp 0).1,
      exp := (levelUpGo (levelUpFuel s.exp) s.level s.exp 0).2.1 },
    (levelUpGo (levelUpFuel s.exp) s.level s.exp 0).2.2)

/-- The experience-award idiom of every caller in the source
(`player.exp += amount` followed by `checkLevelUp()`); the
`addExperience(state, amount)` contract of the spec. -/
def addExperience (s : GameState) (amount : ℚ) : GameState × Nat :=
  checkLevelUp { s with exp := s.exp + amount }

/-- `rarityExpMult(rarityName)`: column 4 of the rarity row found by name,
else 1.  (Column 4 of the tuple is index 2 of `values`; every row of the
concrete table has it, so the `getD` default is never used.) -/
def rarityExpMult (rarityName : String) : ℚ :=
  match RARITY_TIERS.find? (fun r => r.name = rarityName) with
  | some r => r.values.getD 2 1
  | none => 1

/-- `moldExpMult(moldName)`: column 3 of the mold row found by name, else 1. -/
def moldExpMult (moldName : String) : ℚ :=
  match MOLD_TIERS.find? (fun m => m.name = moldName) with
  | some m => m.values.getD 1 1
  | none => 1

/-- Result object `{success, message}` of the upgrade methods. -/
structure MethodResult where
  success : Bool
  message : String
deriving DecidableEq, Repr

/-- `upgradeMold`'s totalCost loop: sum the per-level cost from
`tempLevel = mold_level` upward. -/
def moldTotalCost : Nat → Nat → Nat
  | 0, _ => 0
  | n + 1, tempLevel => mold_cost_formula tempLevel + moldTotalCost n (tempLevel + 1)

/-- `upgradeMold`'s buy loop: per iteration, raise the level, deduct the
currently stored `mold_cost`, then restore `mold_cost` from the new level. -/
def moldBuyGo : Nat → GameState → GameState
  | 0, s => s
  | n + 1, s =>
    moldBuyGo n
      { s with
        mold_level := s.mold_level + 1,
        money := s.money - s.mold_cost,
        mold_cost := mold_cost_formula (s.mold_level + 1) }

/-- `upgradeMold(amount)`. -/
def upgradeMold (s : GameState) (amount : Int) : MethodResult × GameState :=
  if amount ≤ 0 then (⟨false, "Invalid amount."⟩, s)
  else
    let totalCost := moldTotalCost amount.toNat s.mold_level
    if s.money < totalCost then (⟨false, "Not enough money!"⟩, s)
    else (⟨true, s!"Upgraded mold level {amount} times!"⟩, moldBuyGo amount.toNat s)

/-- `upgradeLuck`'s totalCost loop (exponent 2.1, offset 4). -/
def luckTotalCost : Nat → Nat → Nat
  | 0, _ => 0
  | n + 1, tempLevel => luck_cost_formula tempLevel + luckTotalCost n (tempLevel + 1)

/-- `upgradeLuck`'s buy loop: the first iteration deducts whatever
`luck_cost` is currently stored (after `recalculate` that is the 2.4-curve
value), later iterations deduct the 2.1-curve cost of the level just
bought. -/
def luckBuyGo : Nat → GameState → GameState
  | 0, s => s
  | n + 1, s =>
    luckBuyGo n
      { s with
        luck_level := s.luck_level + 1,
        money := s.money - s.luck_cost,
        luck_cost := luck_cost_formula (s.luck_level + 1) }

/-- `upgradeLuck(amount)`. -/
def upgradeLuck (s : GameState) (amount : Int) : MethodResult × GameState :=
  if amount ≤ 0 then (⟨false, "Invalid amount."⟩, s)
  else
    let totalCost := luckTotalCost amount.toNat s.luck_level
    if s.money < totalCost then (⟨false, "Not enough money!"⟩, s)
    else (⟨true, s!"Upgraded luck level {amount} times!"⟩, luckBuyGo amount.toNat s)

/-- Sale of one due sell-area entry, the body of `processSellArea`'s loop:
`money += item.Price`, `exp += item.Price * rarityExpMult * moldExpMult`,
level-ups resolved (returning `levelsGained`), and the item's id pushed
onto `recycled_ids`. -/
def sellOne (e : SellEntry) (s : GameState) : GameState × Nat :=
  let expMult := rarityExpMult e.item.Rarity * moldExpMult e.item.Mold
  let r := checkLevelUp { s with
    money := s.money + e.item.Price,
    exp := s.exp + e.item.Price * expMult }
  ({ r.1 with recycled_ids := r.1.recycled_ids ++ [e.item.ID] }, r.2)

/-- `processSellArea`'s scan, which walks the array from the last index down
to 0 (hence the input here is the reversed queue): a due entry
(`now ≥ time_added + timer`) is sold via `sellOne` and collected; others
are kept.  Returns the final state, the sold `{item, levelsGained}` list in
selling order, and the kept entries (still reversed). -/
def processSellGo (now : ℚ) : List SellEntry → GameState →
    GameState × List (Item × Nat) × List SellEntry
  | [], s => (s, [], [])
  | e :: rest, s =>
    if e.time_added + e.timer ≤ now then
      let r := sellOne e s
      let rec' := processSellGo now rest r.1
      (rec'.1, (e.item, r.2) :: rec'.2.1, rec'.2.2)
    else
      let rec' := processSellGo now rest s
      (rec'.1, rec'.2.1, e :: rec'.2.2)

/-- `processSellArea()` at clock value `now` (`Date.now() / 1000`):
process the queue back-to-front, then the remaining entries (in their
original order) form the new queue.  The `saveGame()` call on a sale is
persistence, outside this model. -/
def processSellArea (s : GameState) (now : ℚ) : GameState × List (Item × Nat) :=
  let r := processSellGo now s.sell_area.reverse s
  ({ r.1 with sell_area := r.2.2.reverse }, r.2.1)

/-- The JavaScript number values combat arithmetic can produce: finite
values, the two infinities (`x/0` for `x ≠ 0`) and `NaN` (`0/0`). -/
inductive JsNum where
  | fin (q : ℚ)
  | inf
  | ninf
  | nan
deriving DecidableEq, Repr

/-- `Math.max(0, Math.floor(enemyAttack / weapon.Defense))` under JavaScript
float semantics.  With `Defense ≠ 0` this is a finite non-negative integer;
with `Defense = 0` the division gives `Infinity` (attack > 0), `-Infinity`
(attack < 0, clamped to 0 by `max`) or `NaN` (attack = 0, which `max`
propagates). -/
def damageTakenJs (attack defense : ℚ) : JsNum :=
  if defense = 0 then
    if 0 < attack then JsNum.inf
    else if attack < 0 then JsNum.fin 0
    else JsNum.nan
  else JsNum.fin ((max 0 ⌊attack / defense⌋ : ℤ) : ℚ)

/-- IEEE subtraction on `JsNum` (for `playerHealth -= damageTaken`). -/
def JsNum.subNum : JsNum → JsNum → JsNum
  | .fin a, .fin b => .fin (a - b)
  | .fin _, .inf => .ninf
  | .fin _, .ninf => .inf
  | .inf, .fin _ => .inf
  | .inf, .ninf => .inf
  | .ninf, .fin _ => .ninf
  | .ninf, .inf => .ninf
  | .inf, .inf => .nan
  | .ninf, .ninf => .nan
  | .nan, _ => .nan
  | _, .nan => .nan

/-- JavaScript `x > 0` (false for `NaN`). -/
def JsNum.gt0 : JsNum → Bool
  | .fin a => decide (0 < a)
  | .inf => true
  | _ => false

/-- JavaScript `x <= 0` (false for `NaN`). -/
def JsNum.le0 : JsNum → Bool
  | .fin a => decide (a ≤ 0)
  | .ninf => true
  | _ => false

/-- Outcome of `fightEnemy`: the victory object (with its optional loot
drop) or one of the two `victory: false` messages. -/
inductive FightResult where
  | victory (exp cash : ℚ) (levelsGained : Nat) (drop : Option Item)
  | defeat (message : String)
deriving DecidableEq, Repr

/-- The `victory` field of the result object. -/
def FightResult.isVictory : FightResult → Bool
  | .victory _ _ _ _ => true
  | .defeat _ => false

/-- The optional `drop` field of the result object (`none` on defeat and on
a non-elite, non-Champions-Hall victory). -/
def FightResult.dropItem : FightResult → Option Item
  | .victory _ _ _ d => d
  | .defeat _ => none

/-- Fallback rows for lookups that cannot miss on the concrete tables. -/
def dummyWeapon : WeaponRow := ⟨"", 0, 0, 0, 0⟩

/-- `enemyLoot(enemy)`.  The two random draws are passed in explicitly:
`weaponIdx` stands for `Math.floor(Math.random() * availableWeapons.length)`
(taken modulo the list length) and `moldRoll` for the mold roll drawn with
bound `MAXIMUM_VALUE / ((mold_mult > 0 ? mold_mult : 1) *
player_luck_multiplier)`.  `costScale` stands for `getRarityCostScaling`,
whose exact value is the irrational real modelled by the ℝ-valued
definition below; no claim reads the loot item's price.  `getTier` is
called with the (unused) multiplier argument set to 1. -/
def enemyLoot (costScale : String → ℚ) (s : GameState) (enemy : Enemy)
    (weaponIdx moldRoll : Nat) : Item × GameState :=
  let rarityData := match RARITY_TIERS.find? (fun r => decide (r.name = enemy.name)) with
    | some r => r
    | none => RARITY_TIERS.getLastD ⟨"", 0, []⟩
  let rarityName := rarityData.name
  let priceMult := rarityData.values.getD 0 1
  let damageMult := rarityData.values.getD 1 1
  let availableWeapons := WEAPON_TYPES.filter (fun w => w.moldLevelRequired ≤ s.mold_level)
  let weaponChoice := (availableWeapons.getD (weaponIdx % availableWeapons.length) dummyWeapon).type
  let damageBase := ((WEAPON_TYPES.find? (fun w => decide (w.type = weaponChoice))).getD dummyWeapon).baseDamage
  let defenseBase := ((WEAPON_TYPES.find? (fun w => decide (w.type = weaponChoice))).getD dummyWeapon).baseDefense
  let moldResult := getTierD moldRoll MOLD_TIERS 1
  let idPick : Nat × GameState := match s.recycled_ids.getLast? with
    | some recycledId => (recycledId, { s with recycled_ids := s.recycled_ids.dropLast })
    | none => (s.item_id_counter, { s with item_id_counter := s.item_id_counter + 1 })
  (⟨idPick.1, enemy.RNG, moldResult.tier, rarityName,
    5 * priceMult * moldResult.values.getD 0 1 * costScale rarityName,
    weaponChoice, damageBase * damageMult, defenseBase * (damageMult * 0.5)⟩,
   idPick.2)

/-- The victory exit of `fightEnemy`'s loop: credit cash and exp, resolve
level-ups, remove the first list entry equal to the enemy from the area's
spawned list (a silent no-op when absent), and push a loot drop when the
enemy is elite or the area is Champions Hall. -/
def victoryUpdate (costScale : String → ℚ) (areaName : String) (enemy : Enemy)
    (lootRolls : Nat × Nat) (s : GameState) : FightResult × GameState :=
  let r := checkLevelUp { s with
    money := s.money + enemy.cash,
    exp := s.exp + enemy.exp }
  let s2 := r.1
  let lst := s2.spawned_enemies areaName
  let lst' := match lst.findIdx? (fun e => decide (e = enemy)) with
    | some i => lst.eraseIdx i
    | none => lst
  let s3 := { s2 with
    spawned_enemies := fun a => if a = areaName then lst' else s2.spawned_enemies a }
  if enemy.Elite || areaName = "Champions Hall" then
    let lr := enemyLoot costScale s3 enemy lootRolls.1 lootRolls.2
    let s4 := { lr.2 with item_storage := lr.2.item_storage ++ [lr.1] }
    (FightResult.victory enemy.exp enemy.cash r.2 (some lr.1), s4)
  else
    (FightResult.victory enemy.exp enemy.cash r.2 none, s3)

/-- The `while (playerHealth > 0 && enemyHealth > 0)` loop of `fightEnemy`,
with explicit fuel (`none` = fuel exhausted, i.e. the loop is still
running); `victoryUpdate` handles the `enemyHealth <= 0` exit. -/
def fightLoop (costScale : String → ℚ) (areaName : String) (enemy : Enemy)
    (w : Item) (lootRolls : Nat × Nat) :
    Nat → GameState → JsNum → ℚ → Option (FightResult × GameState)
  | 0, _, _, _ => none
  | fuel + 1, s, playerHealth, enemyHealth =>
    if playerHealth.gt0 && decide (0 < enemyHealth) then
      let damageDealt : ℤ := ⌊w.Damage⌋
      let enemyHealth' := enemyHealth - damageDealt
      if enemyHealth' ≤ 0 then
        some (victoryUpdate costScale areaName enemy lootRolls s)
      else
        let damageTaken := damageTakenJs enemy.damage w.Defense
        let playerHealth' := playerHealth.subNum damageTaken
        if playerHealth'.le0 then
          some (FightResult.defeat s!"You were defeated by the {enemy.name}!", s)
        else
          fightLoop costScale areaName enemy w lootRolls fuel s playerHealth' enemyHealth'
    else
      some (FightResult.defeat "Combat ended unexpectedly.", s)

/-- `fightEnemy(areaName, enemy, dropItems)`: fixed player health 100,
enemy health from the stat block, weapon from the equipped slot (the
source dereferences `weapon.Damage`, so a missing weapon throws: `none`).
The `dropItems` parameter is unused in the source body and kept for the
record. -/
def fightEnemy (costScale : String → ℚ) (fuel : Nat) (s : GameState)
    (areaName : String) (enemy : Enemy) (dropItems : Bool)
    (lootRolls : Nat × Nat) : Option (FightResult × GameState) :=
  let _ := dropItems
  match s.equipped with
  | none => none
  | some w => fightLoop costScale areaName enemy w lootRolls fuel s (JsNum.fin 100) enemy.health

/-- `getRarityCostScaling(rarityName)` over ℝ: the rank from the bottom of
the rarity table feeds `1 + rank^1.25 / 160` (`RARITY_COST_EXPONENT = 1.25`,
`RARITY_COST_DIVISOR = 160`), capped by `Math.min(scale, 1.85)`; an unknown
name gives 1. -/
noncomputable def getRarityCostScaling (rarityName : String) : ℝ :=
  match RARITY_TIERS.findIdx? (fun r => decide (r.name = rarityName)) with
  | none => 1
  | some tierIndex =>
    let rank := RARITY_TIERS.length - tierIndex
    min (1 + (rank : ℝ) ^ (1.25 : ℝ) / 160) 1.85

/-- The price composition of `itemGen`, given the two tier results its
`rngGen` call resolved: `basePrice = 4.5`, `rarityMult = rarity[2] * 0.95`,
`price = basePrice * rarityMult * moldMultPrice * costScale`.  Over ℝ since
the cost scaling is irrational; `rarity[2]`/`mold[2]` are `values[0]` of
the respective result and the `getD` default is never used on the concrete
tables. -/
noncomputable def itemGenPrice (rarityResult moldResult : TierResult) : ℝ :=
  let basePrice : ℝ := 4.5
  let rarityMult : ℝ := ((rarityResult.values.getD 0 1 : ℚ) : ℝ) * 0.95
  let moldMultPrice : ℝ := ((moldResult.values.getD 0 1 : ℚ) : ℝ)
  let costScale := getRarityCostScaling rarityResult.tier
  basePrice * rarityMult * moldMultPrice * costScale

/-- Final price as §4.3 of the spec words it: `basePrice *
rarityPriceMultiplier * moldPriceMultiplier * costScalingFactor(rarityName)`
— with no 0.95 damping on the rarity multiplier.  Stated from the spec's
words for comparison with `itemGenPrice`. -/
noncomputable def specItemPrice (rarityResult moldResult : TierResult) : ℝ :=
  ((rarityResult.values.getD 0 1 : ℚ) : ℝ) *
    ((moldResult.values.getD 0 1 : ℚ) : ℝ) *
    getRarityCostScaling rarityResult.tier * 4.5

/-- Threshold of row `i` (0 out of range). -/
def thD (tiers : List TierRow) (i : Nat) : Nat := (tiers.map (·.threshold)).getD i 0

/-- Name of row `i` ("" out of range). -/
def nameD (tiers : List TierRow) (i : Nat) : String := (tiers.map (·.name)).getD i ""

/-- Exclusive lower bound of row `i`: the previous row's threshold, 0 for
the first row. -/
def prevThD (tiers : List TierRow) (i : Nat) : Nat :=
  if i = 0 then 0 else thD tiers (i - 1)

theorem thD_eq_getElem (tiers : List TierRow) (i : Nat) (hi : i < tiers.length) :
    thD tiers i = tiers[i].threshold := by
  simp [thD, List.getD_eq_getElem?_getD, List.getElem?_eq_getElem hi]

theorem thD_strict_mono (tiers : List TierRow)
    (hasc : List.Chain' (fun a b => a.threshold < b.threshold) tiers)
    (i j : Nat) (hij : i < j) (hj : j < tiers.length) :
    thD tiers i < thD tiers j := by
  haveI : IsTrans TierRow (fun a b => a.threshold < b.threshold) :=
    ⟨fun _ _ _ => Nat.lt_trans⟩
  rw [List.chain'_iff_pairwise] at hasc
  have h := List.pairwise_iff_getElem.mp hasc i j (by omega) hj hij
  rw [thD_eq_getElem tiers i (by omega), thD_eq_getElem tiers j hj]
  exact h

theorem getTierAux_correct (l : List TierRow) (prev r i : Nat)
    (hi : i < l.length)
    (hcut : ∀ j, j < i → thD l j < r)
    (hpv : prev < r)
    (hhigh : r ≤ thD l i) :
    (getTierAux r prev l).map (·.tier) = some (nameD l i) := by
  induction l generalizing prev i with
  | nil => simp at hi
  | cons t rest ih =>
    cases i with
    | zero =>
      have h1 : r ≤ t.threshold := by simpa [thD] using hhigh
      rw [getTierAux, if_pos ⟨hpv, h1⟩]
      simp [nameD]
    | succ j =>
      have h0 : t.threshold < r := by
        have := hcut 0 (Nat.succ_pos j)
        simpa [thD] using this
      rw [getTierAux, if_neg (fun h => absurd h.2 (by omega))]
      have hcut' : ∀ k, k < j → thD rest k < r := by
        intro k hk
        have := hcut (k + 1) (by omega)
        simpa [thD] using this
      have hhigh' : r ≤ thD rest j := by simpa [thD] using hhigh
      exact ih t.threshold j (by simpa using hi) hcut' h0 hhigh'

theorem getTierAux_none (l : List TierRow) (prev r : Nat)
    (hall : ∀ j, j < l.length → thD l j < r) :
    getTierAux r prev l = none := by
  induction l generalizing prev with
  | nil => rfl
  | cons t rest ih =>
    have h0 : t.threshold < r := by
      have := hall 0 (by simp)
      simpa [thD] using this
    rw [getTierAux, if_neg (fun h => absurd h.2 (by omega))]
    exact ih t.threshold (fun j hj => by
      have := hall (j + 1) (by simpa using Nat.succ_lt_succ hj)
      simpa [thD] using this)

theorem nameD_eq_getElem (tiers : List TierRow) (i : Nat) (hi : i < tiers.length) :
    nameD tiers i = tiers[i].name := by
  simp [nameD, List.getD_eq_getElem?_getD, List.getElem?_eq_getElem hi]

theorem getTier_resolves_row (tiers : List TierRow) (lm : ℚ) (i r : Nat)
    (hasc : List.Chain' (fun a b => a.threshold < b.threshold) tiers)
    (hi : i < tiers.length) (hlow : prevThD tiers i < r) (hhigh : r ≤ thD tiers i) :
    (getTier r tiers lm).map (·.tier) = some (nameD tiers i) := by
  have hcut : ∀ j, j < i → thD tiers j < r := by
    intro j hj
    cases i with
    | zero => omega
    | succ i' =>
      have hlow' : thD tiers i' < r := by simpa [prevThD] using hlow
      have hj' : j ≤ i' := by omega
      rcases eq_or_lt_of_le hj' with h | h
      · exact h ▸ hlow'
      · exact lt_trans (thD_strict_mono tiers hasc j i' h (by omega)) hlow'
  have hpv : 0 < r := by
    have : 0 ≤ prevThD tiers i := Nat.zero_le _
    omega
  have haux := getTierAux_correct tiers 0 r i hi hcut hpv hhigh
  rcases Option.map_eq_some'.mp haux with ⟨res, hres, hname⟩
  simp [getTier, hres, hname]

theorem getTier_fallback (tiers : List TierRow) (lm : ℚ) (r : Nat)
    (hne : tiers ≠ [])
    (hasc : List.Chain' (fun a b => a.threshold < b.threshold) tiers)
    (hr : thD tiers (tiers.length - 1) < r) :
    (getTier r tiers lm).map (·.tier) = some (nameD tiers (tiers.length - 1)) := by
  have hlen : 0 < tiers.length := List.length_pos.mpr hne
  have hall : ∀ j, j < tiers.length → thD tiers j < r := by
    intro j hj
    rcases eq_or_lt_of_le (Nat.le_sub_one_of_lt hj) with h | h
    · exact h ▸ hr
    · exact lt_trans (thD_strict_mono tiers hasc j (tiers.length - 1) h (by omega)) hr
  have hnone := getTierAux_none tiers 0 r hall
  have hlast : tiers.getLast? = some tiers[tiers.length - 1] := by
    rw [List.getLast?_eq_getElem?]
    exact List.getElem?_eq_getElem (by omega)
  rw [nameD_eq_getElem tiers _ (by omega)]
  simp [getTier, hnone, hlast]

/-- C4: on a tier table with strictly increasing thresholds, every roll `r`
with `prevThreshold(i) < r ≤ threshold(i)` resolves via `getTier` to row
`i`'s name (the first row's lower bound being 0); in particular
`r = threshold(i)` resolves to row `i` and `r = threshold(i) + 1` to row
`i + 1`; a roll above the last threshold falls back to the last
(lowest-rarity) row. -/
theorem getTier_threshold_semantics (tiers : List TierRow) (lm : ℚ)
    (hne : tiers ≠ [])
    (hasc : List.Chain' (fun a b => a.threshold < b.threshold) tiers) :
    (∀ i r, i < tiers.length → prevThD tiers i < r → r ≤ thD tiers i →
      (getTier r tiers lm).map (·.tier) = some (nameD tiers i)) ∧
    (∀ i, i < tiers.length → prevThD tiers i < thD tiers i →
      (getTier (thD tiers i) tiers lm).map (·.tier) = some (nameD tiers i)) ∧
    (∀ i, i + 1 < tiers.length →
      (getTier (thD tiers i + 1) tiers lm).map (·.tier) = some (nameD tiers (i + 1))) ∧
    (∀ r, thD tiers (tiers.length - 1) < r →
      (getTier r tiers lm).map (·.tier) = some (nameD tiers (tiers.length - 1))) := by
  refine ⟨fun i r hi hlow hhigh => getTier_resolves_row tiers lm i r hasc hi hlow hhigh,
    fun i hi hgap => getTier_resolves_row tiers lm i _ hasc hi hgap le_rfl,
    fun i hi => ?_, fun r hr => getTier_fallback tiers lm r hne hasc hr⟩
  have hstep : thD tiers i < thD tiers (i + 1) :=
    thD_strict_mono tiers hasc i (i + 1) (by omega) hi
  refine getTier_resolves_row tiers lm (i + 1) _ hasc hi ?_ (by omega)
  have hpe : prevThD tiers (i + 1) = thD tiers i := by simp [prevThD]
  omega

/-- Witness for C4 on the concrete mold table: roll `MAXIMUM_VALUE / 90000`
(the "Onyx" threshold) resolves to "Onyx", the next roll up to "Diamond",
and a roll past the last threshold falls back to "Copper". -/
theorem MOLD_TIERS_ascending :
    List.Chain' (fun a b => a.threshold < b.threshold) MOLD_TIERS := by
  simp only [MOLD_TIERS, List.chain'_cons, List.chain'_singleton]
  decide

theorem getTier_threshold_semantics_witness :
    (getTier (thD MOLD_TIERS 2) MOLD_TIERS 1).map (·.tier) = some "Onyx" ∧
    (getTier (thD MOLD_TIERS 2 + 1) MOLD_TIERS 1).map (·.tier) = some "Diamond" ∧
    (getTier (MAXIMUM_VALUE + 5) MOLD_TIERS 1).map (·.tier) = some "Copper" := by
  have h := getTier_threshold_semantics MOLD_TIERS 1 (by decide) MOLD_TIERS_ascending
  refine ⟨?_, ?_, ?_⟩
  · have h2 := h.2.1 2 (by decide) (by decide)
    rw [show nameD MOLD_TIERS 2 = "Onyx" from rfl] at h2
    exact h2
  · have h2 := h.2.2.1 2 (by decide)
    rw [show nameD MOLD_TIERS 3 = "Diamond" from rfl] at h2
    exact h2
  · have h2 := h.2.2.2 (MAXIMUM_VALUE + 5) (by decide)
    rw [show nameD MOLD_TIERS (MOLD_TIERS.length - 1) = "Copper" from rfl] at h2
    exact h2

theorem inthRoot_le_of_pow_le (n N k : Nat) (hn : 0 < n) (h : k ^ n ≤ N) :
    k ≤ inthRoot n N := by
  have hs := inthRoot_spec n N hn
  by_contra hc
  push_neg at hc
  have hle : (inthRoot n N + 1) ^ n ≤ k ^ n := Nat.pow_le_pow_left (by omega) n
  omega

theorem requiredExp_ge_100 (level : Nat) (h : 1 ≤ level) :
    100 ≤ requiredExp level := by
  refine inthRoot_le_of_pow_le 20 _ 100 (by norm_num) ?_
  have h1 : (1 : Nat) ≤ level ^ 21 := Nat.one_le_pow _ _ (by omega)
  calc (100 : Nat) ^ 20 = 100 ^ 20 * 1 := by ring
  _ ≤ 100 ^ 20 * level ^ 21 := Nat.mul_le_mul_left _ h1

theorem lt_levelUpFuel (e : ℚ) : e < (levelUpFuel e : ℚ) := by
  unfold levelUpFuel
  have h1 : e < ⌊e⌋ + 1 := Int.lt_floor_add_one e
  have h2 : ((⌊e⌋ : ℤ) : ℚ) ≤ ((⌊e⌋.toNat : ℤ) : ℚ) := by
    exact_mod_cast Int.self_le_toNat _
  push_cast at h2 ⊢
  linarith

theorem levelUpGo_invariant (fuel : Nat) :
    ∀ (level : Nat) (e : ℚ) (g : Nat), 1 ≤ level → e < (fuel : ℚ) →
      (levelUpGo fuel level e g).2.1 <
          requiredExp (levelUpGo fuel level e g).1 ∧
        1 ≤ (levelUpGo fuel level e g).1 := by
  induction fuel with
  | zero =>
    intro level e g hl hf
    have hreq : (0 : ℚ) ≤ (requiredExp level : ℚ) := by positivity
    have h0 : e < 0 := by exact_mod_cast hf
    exact ⟨by simpa [levelUpGo] using lt_of_lt_of_le h0 hreq, hl⟩
  | succ fuel ih =>
    intro level e g hl hf
    rw [levelUpGo]
    by_cases hc : (requiredExp level : ℚ) ≤ e
    · rw [if_pos hc]
      have h100 : (100 : ℚ) ≤ (requiredExp level : ℚ) := by
        exact_mod_cast requiredExp_ge_100 level hl
      refine ih (level + 1) (e - requiredExp level) (g + 1) (by omega) ?_
      push_cast at hf ⊢
      linarith
    · rw [if_neg hc]
      exact ⟨not_le.mp hc, hl⟩

theorem checkLevelUp_invariant (s : GameState) (h : 1 ≤ s.level) :
    (checkLevelUp s).1.exp < requiredExp ((checkLevelUp s).1.level) ∧
      1 ≤ (checkLevelUp s).1.level := by
  simpa [checkLevelUp] using
    levelUpGo_invariant (levelUpFuel s.exp) s.level s.exp 0 h (lt_levelUpFuel s.exp)

theorem levelUpGo_fuel_irrel (f1 : Nat) :
    ∀ (f2 level : Nat) (e : ℚ) (g : Nat), 1 ≤ level →
      e < (f1 : ℚ) → e < (f2 : ℚ) →
      levelUpGo f1 level e g = levelUpGo f2 level e g := by
  induction f1 with
  | zero =>
    intro f2 level e g hl h1 h2
    have h0 : e < 0 := by exact_mod_cast h1
    have hreq : (0 : ℚ) ≤ (requiredExp level : ℚ) := by positivity
    cases f2 with
    | zero => rfl
    | succ f2' =>
      simp only [levelUpGo]
      rw [if_neg (by linarith)]
  | succ f1' ih =>
    intro f2 level e g hl h1 h2
    by_cases hc : (requiredExp level : ℚ) ≤ e
    · have h100 : (100 : ℚ) ≤ (requiredExp level : ℚ) := by
        exact_mod_cast requiredExp_ge_100 level hl
      cases f2 with
      | zero =>
        exfalso
        have h0 : e < 0 := by exact_mod_cast h2
        linarith
      | succ f2' =>
        simp only [levelUpGo]
        rw [if_pos hc, if_pos hc]
        exact ih f2' (level + 1) (e - requiredExp level) (g + 1) (by omega)
          (by push_cast at h1 ⊢; linarith) (by push_cast at h2 ⊢; linarith)
    · cases f2 with
      | zero =>
        simp only [levelUpGo]
        rw [if_neg hc]
      | succ f2' =>
        simp only [levelUpGo]
        rw [if_neg hc, if_neg hc]

theorem levelUpGo_accum (fuel : Nat) :
    ∀ (level : Nat) (e : ℚ) (g : Nat),
      levelUpGo fuel level e g =
        ((levelUpGo fuel level e 0).1, (levelUpGo fuel level e 0).2.1,
          g + (levelUpGo fuel level e 0).2.2) := by
  induction fuel with
  | zero => intro level e g; simp [levelUpGo]
  | succ fuel ih =>
    intro level e g
    by_cases hc : (requiredExp level : ℚ) ≤ e
    · simp only [levelUpGo, if_pos hc]
      rw [ih (level + 1) (e - requiredExp level) (g + 1),
        ih (level + 1) (e - requiredExp level) (0 + 1)]
      simp only [Nat.zero_add]
      refine congrArg _ (congrArg _ ?_)
      omega
    · simp [levelUpGo, if_neg hc]

theorem levelUpGo_add (f1 : Nat) :
    ∀ (f2 f3 level : Nat) (e b : ℚ), 0 ≤ b → 1 ≤ level →
      e < (f1 : ℚ) → e + b < (f2 : ℚ) →
      (levelUpGo f1 level e 0).2.1 + b < (f3 : ℚ) →
      ((levelUpGo f2 level (e + b) 0).1, (levelUpGo f2 level (e + b) 0).2.1) =
        ((levelUpGo f3 (levelUpGo f1 level e 0).1
            ((levelUpGo f1 level e 0).2.1 + b) 0).1,
          (levelUpGo f3 (levelUpGo f1 level e 0).1
            ((levelUpGo f1 level e 0).2.1 + b) 0).2.1) := by
  induction f1 with
  | zero =>
    intro f2 f3 level e b hb hl h1 h2 h3
    simp only [levelUpGo] at h3 ⊢
    rw [levelUpGo_fuel_irrel f2 f3 level (e + b) 0 hl h2 h3]
  | succ f1' ih =>
    intro f2 f3 level e b hb hl h1 h2 h3
    by_cases hc : (requiredExp level : ℚ) ≤ e
    · have h100 : (100 : ℚ) ≤ (requiredExp level : ℚ) := by
        exact_mod_cast requiredExp_ge_100 level hl
      have hcb : (requiredExp level : ℚ) ≤ e + b := by linarith
      cases f2 with
      | zero =>
        exfalso
        have h0 : e + b < 0 := by exact_mod_cast h2
        linarith
      | succ f2' =>
        have hstep : levelUpGo (f1' + 1) level e 0 =
            levelUpGo f1' (level + 1) (e - requiredExp level) 1 := by
          simp only [levelUpGo, if_pos hc]
        rw [hstep, levelUpGo_accum f1' (level + 1) (e - requiredExp level) 1] at h3 ⊢
        have hstep2 : levelUpGo (f2' + 1) level (e + b) 0 =
            levelUpGo f2' (level + 1) (e + b - requiredExp level) 1 := by
          simp only [levelUpGo, if_pos hcb]
        rw [hstep2, levelUpGo_accum f2' (level + 1) (e + b - requiredExp level) 1]
        simp only at h3 ⊢
        have harr : e + b - (requiredExp level : ℚ) =
            (e - requiredExp level) + b := by ring
        rw [harr]
        exact ih f2' f3 (level + 1) (e - requiredExp level) b hb (by omega)
          (by push_cast at h1 ⊢; linarith) (by push_cast at h2 ⊢; linarith) h3
    · have hng : levelUpGo (f1' + 1) level e 0 = (level, e, 0) := by
        simp only [levelUpGo, if_neg hc]
      rw [hng] at h3 ⊢
      simp only at h3 ⊢
      rw [levelUpGo_fuel_irrel f2 f3 level (e + b) 0 hl h2 h3]

/-- C6: awarding experience in two successive calls of amounts `a` then `b`
(each followed by eager level-up resolution) yields the same final
`(level, experience)` pair as a single award of `a + b`, for every starting
state (its level ≥ 1, as the game maintains) and all non-negative `a`, `b`. -/
theorem addExperience_split_award_agrees (s : GameState) (a b : ℚ)
    (ha : 0 ≤ a) (hb : 0 ≤ b) (hlevel : 1 ≤ s.level) :
    ((addExperience (addExperience s a).1 b).1.level,
      (addExperience (addExperience s a).1 b).1.exp) =
      ((addExperience s (a + b)).1.level, (addExperience s (a + b)).1.exp) := by
  have h2 : s.exp + a + b < (levelUpFuel (s.exp + (a + b)) : ℚ) := by
    rw [add_assoc]
    exact lt_levelUpFuel _
  have key := levelUpGo_add (levelUpFuel (s.exp + a))
    (levelUpFuel (s.exp + (a + b)))
    (levelUpFuel ((levelUpGo (levelUpFuel (s.exp + a)) s.level (s.exp + a) 0).2.1 + b))
    s.level (s.exp + a) b hb hlevel (lt_levelUpFuel _) h2 (lt_levelUpFuel _)
  rw [add_assoc] at key
  simp only [addExperience, checkLevelUp]
  exact key.symm

/-- Witness for C6: splitting an award of 400 into 150 + 250 from the fresh
state ends at the same `(level, exp)` pair as the single award. -/
theorem addExperience_split_award_agrees_witness :
    ((addExperience (addExperience freshGameState 150).1 250).1.level,
      (addExperience (addExperience freshGameState 150).1 250).1.exp) =
      ((addExperience freshGameState (150 + 250)).1.level,
        (addExperience freshGameState (150 + 250)).1.exp) :=
  addExperience_split_award_agrees freshGameState 150 250 (by decide) (by decide)
    (by decide)

set_option maxRecDepth 100000 in
/-- C5: after any experience award is resolved by the eager level-up loop,
the player's experience is strictly below the requirement of the current
level; and the single award of 1000000 experience from the fresh state
(level 1, exp 0) gains more than one level in that one resolution while
still ending below the final level's requirement. -/
theorem addExperience_exp_below_requirement :
    (∀ (s : GameState) (amount : ℚ), 1 ≤ s.level → 0 ≤ amount →
      (addExperience s amount).1.exp <
        requiredExp ((addExperience s amount).1.level)) ∧
    1 < (addExperience freshGameState 1000000).2 ∧
    (addExperience freshGameState 1000000).1.exp <
      requiredExp ((addExperience freshGameState 1000000).1.level) := by
  have hgen : ∀ (s : GameState) (amount : ℚ), 1 ≤ s.level →
      (addExperience s amount).1.exp <
        requiredExp ((addExperience s amount).1.level) := by
    intro s amount hl
    exact (checkLevelUp_invariant { s with exp := s.exp + amount }
      (by simpa using hl)).1
  refine ⟨fun s amount hl _ => hgen s amount hl, ?_,
    hgen freshGameState 1000000 (by decide)⟩
  decide

/-- Witness for C5: a 150-experience award from the fresh state leaves the
experience below the (new) level's requirement. -/
theorem addExperience_exp_below_requirement_witness :
    (addExperience freshGameState 150).1.exp <
      requiredExp ((addExperience freshGameState 150).1.level) :=
  addExperience_exp_below_requirement.1 freshGameState 150 (by decide) (by decide)

/-- C8: an upgrade purchase on either track whose count is non-positive or
whose total cost exceeds the available money returns a failure result and
leaves every state field exactly as it was. -/
theorem upgrade_failure_is_atomic (s : GameState) (amount : Int) :
    ((amount ≤ 0 ∨ s.money < (moldTotalCost amount.toNat s.mold_level : ℚ)) →
      (upgradeMold s amount).1.success = false ∧ (upgradeMold s amount).2 = s) ∧
    ((amount ≤ 0 ∨ s.money < (luckTotalCost amount.toNat s.luck_level : ℚ)) →
      (upgradeLuck s amount).1.success = false ∧ (upgradeLuck s amount).2 = s) := by
  constructor
  · intro h
    by_cases h0 : amount ≤ 0
    · simp only [upgradeMold, if_pos h0]
      exact ⟨trivial, trivial⟩
    · rcases h with h | h
      · exact absurd h h0
      · simp only [upgradeMold, if_neg h0, if_pos h]
        exact ⟨trivial, trivial⟩
  · intro h
    by_cases h0 : amount ≤ 0
    · simp only [upgradeLuck, if_pos h0]
      exact ⟨trivial, trivial⟩
    · rcases h with h | h
      · exact absurd h h0
      · simp only [upgradeLuck, if_neg h0, if_pos h]
        exact ⟨trivial, trivial⟩

/-- Witness for C8: a zero-count mold purchase and an unaffordable 3-level
luck purchase (cost 27, money 0) both fail and change nothing. -/
theorem upgrade_failure_is_atomic_witness :
    ((upgradeMold freshGameState 0).1.success = false ∧
      (upgradeMold freshGameState 0).2 = freshGameState) ∧
    ((upgradeLuck freshGameState 3).1.success = false ∧
      (upgradeLuck freshGameState 3).2 = freshGameState) :=
  ⟨(upgrade_failure_is_atomic freshGameState 0).1 (Or.inl (by decide)),
    (upgrade_failure_is_atomic freshGameState 3).2 (Or.inr (by decide))⟩

/-- C1 (code bug, luck track): from a freshly recalculated state
(`recalculate` stores `luck_cost = round(1^2.4) + 5 = 6`), `upgradeLuck(3)`
checks affordability against `totalCost = 5 + 8 + 14 = 27` (the 2.1-curve
per-level costs of its own loop) but deducts `6 + 8 + 14 = 28`, because the
first buy iteration subtracts the stale stored `luck_cost`: with money 27
the purchase succeeds and money ends at −1, and the amount deducted is
neither the 2.1-curve sum (27) nor the 2.4-curve sum (35). -/
theorem upgradeLuck_deducts_stale_cost :
    ((upgradeLuck { freshGameState with money := 27 } 3).1.success = true ∧
      (upgradeLuck { freshGameState with money := 27 } 3).2.money = -1) ∧
    luckTotalCost 3 freshGameState.luck_level = 27 ∧
    luck_cost_formula 1 + luck_cost_formula 2 + luck_cost_formula 3 = 27 ∧
    luck_cost_recalc 1 + luck_cost_recalc 2 + luck_cost_recalc 3 = 35 ∧
    freshGameState.luck_cost = luck_cost_recalc 1 := by
  exact ⟨⟨by decide, by decide⟩, by decide, by decide, by decide, by decide⟩

theorem rarityExpMult_nonneg (rarityName : String) : 0 ≤ rarityExpMult rarityName := by
  unfold rarityExpMult
  cases hfind : RARITY_TIERS.find? (fun r => r.name = rarityName) with
  | none => norm_num
  | some r =>
    have hmem := List.mem_of_find?_eq_some hfind
    have hall : ∀ x ∈ RARITY_TIERS, (0 : ℚ) ≤ x.values.getD 2 1 := by decide
    exact hall r hmem

theorem moldExpMult_nonneg (moldName : String) : 0 ≤ moldExpMult moldName := by
  unfold moldExpMult
  cases hfind : MOLD_TIERS.find? (fun m => m.name = moldName) with
  | none => norm_num
  | some m =>
    have hmem := List.mem_of_find?_eq_some hfind
    have hall : ∀ x ∈ MOLD_TIERS, (0 : ℚ) ≤ x.values.getD 1 1 := by decide
    exact hall m hmem

theorem levelUpGo_of_lt (fuel level : Nat) (e : ℚ) (g : Nat)
    (h : e < (requiredExp level : ℚ)) :
    levelUpGo fuel level e g = (level, e, g) := by
  cases fuel with
  | zero => rfl
  | succ f =>
    simp only [levelUpGo]
    rw [if_neg (not_le.mpr h)]

theorem checkLevelUp_of_inv (s : GameState)
    (h : s.exp < (requiredExp s.level : ℚ)) : checkLevelUp s = (s, 0) := by
  simp [checkLevelUp, levelUpGo_of_lt _ _ _ _ h]

/-- Sum of the experience awards (`price * rarityExpMult * moldExpMult`) of
the entries of `l` due at `now`. -/
def sellExpAwards (now : ℚ) (l : List SellEntry) : ℚ :=
  ((l.filter (fun e => decide (e.time_added + e.timer ≤ now))).map
    (fun e => e.item.Price * (rarityExpMult e.item.Rarity * moldExpMult e.item.Mold))).sum

theorem sellExpAwards_nonneg (now : ℚ) (l : List SellEntry)
    (hp : ∀ e ∈ l, 0 ≤ e.item.Price) : 0 ≤ sellExpAwards now l := by
  apply List.sum_nonneg
  intro x hx
  rcases List.mem_map.mp hx with ⟨e, he, rfl⟩
  have he' : e ∈ l := List.mem_of_mem_filter he
  have := hp e he'
  have h1 := rarityExpMult_nonneg e.item.Rarity
  have h2 := moldExpMult_nonneg e.item.Mold
  positivity

theorem sellOne_money (e : SellEntry) (s : GameState) :
    (sellOne e s).1.money = s.money + e.item.Price := rfl

theorem sellOne_sell_area (e : SellEntry) (s : GameState) :
    (sellOne e s).1.sell_area = s.sell_area := rfl

theorem sellOne_invariant (e : SellEntry) (s : GameState) (hl : 1 ≤ s.level) :
    (sellOne e s).1.exp < (requiredExp ((sellOne e s).1.level) : ℚ) ∧
      1 ≤ (sellOne e s).1.level := by
  have h := checkLevelUp_invariant { s with
    money := s.money + e.item.Price,
    exp := s.exp + e.item.Price *
      (rarityExpMult e.item.Rarity * moldExpMult e.item.Mold) } (by simpa using hl)
  exact ⟨by exact_mod_cast h.1, h.2⟩

theorem processSellGo_spec (now : ℚ) (l : List SellEntry) :
    ∀ s : GameState,
      (processSellGo now l s).2.1.map (fun p => p.1) =
          (l.filter (fun e => decide (e.time_added + e.timer ≤ now))).map (·.item) ∧
        (processSellGo now l s).2.2 =
          l.filter (fun e => !(decide (e.time_added + e.timer ≤ now))) ∧
        (processSellGo now l s).1.money =
          s.money + ((l.filter (fun e => decide (e.time_added + e.timer ≤ now))).map
            (·.item.Price)).sum ∧
        (processSellGo now l s).1.sell_area = s.sell_area := by
  induction l with
  | nil =>
    intro s
    simp [processSellGo]
  | cons e rest ih =>
    intro s
    by_cases hdue : e.time_added + e.timer ≤ now
    · obtain ⟨ih1, ih2, ih3, ih4⟩ := ih (sellOne e s).1
      simp only [processSellGo, if_pos hdue]
      refine ⟨?_, ?_, ?_, ?_⟩
      · rw [List.filter_cons_of_pos (by simpa using hdue)]
        simp [ih1]
      · rw [List.filter_cons_of_neg (by simpa using hdue)]
        exact ih2
      · rw [List.filter_cons_of_pos (by simpa using hdue)]
        simp only [List.map_cons, List.sum_cons]
        rw [ih3, sellOne_money]
        ring
      · rw [ih4, sellOne_sell_area]
    · obtain ⟨ih1, ih2, ih3, ih4⟩ := ih s
      simp only [processSellGo, if_neg hdue]
      refine ⟨?_, ?_, ?_, ?_⟩
      · rw [List.filter_cons_of_neg (by simpa using hdue)]
        exact ih1
      · rw [List.filter_cons_of_pos (by simpa using hdue)]
        simp [ih2]
      · rw [List.filter_cons_of_neg (by simpa using hdue)]
        exact ih3
      · exact ih4

theorem processSellGo_levels (now : ℚ) (l : List SellEntry) :
    ∀ s : GameState, 1 ≤ s.level → s.exp < (requiredExp s.level : ℚ) →
      (∀ e ∈ l, 0 ≤ e.item.Price) →
      ((processSellGo now l s).1.level, (processSellGo now l s).1.exp) =
        ((levelUpGo (levelUpFuel (s.exp + sellExpAwards now l)) s.level
            (s.exp + sellExpAwards now l) 0).1,
          (levelUpGo (levelUpFuel (s.exp + sellExpAwards now l)) s.level
            (s.exp + sellExpAwards now l) 0).2.1) := by
  induction l with
  | nil =>
    intro s hl hinv hp
    have h0 : sellExpAwards now [] = 0 := rfl
    rw [h0, add_zero, levelUpGo_of_lt _ _ _ _ hinv]
    simp [processSellGo]
  | cons e rest ih =>
    intro s hl hinv hp
    have hp' : ∀ x ∈ rest, 0 ≤ x.item.Price :=
      fun x hx => hp x (List.mem_cons_of_mem _ hx)
    by_cases hdue : e.time_added + e.timer ≤ now
    · have hinv2 := sellOne_invariant e s hl
      have key := ih (sellOne e s).1 hinv2.2 hinv2.1 hp'
      have hawards : sellExpAwards now (e :: rest) =
          e.item.Price * (rarityExpMult e.item.Rarity * moldExpMult e.item.Mold) +
            sellExpAwards now rest := by
        simp [sellExpAwards, List.filter_cons, hdue]
      simp only [processSellGo, if_pos hdue]
      rw [key, hawards]
      have hse1 : (sellOne e s).1.level =
          (levelUpGo (levelUpFuel (s.exp + e.item.Price *
              (rarityExpMult e.item.Rarity * moldExpMult e.item.Mold))) s.level
            (s.exp + e.item.Price *
              (rarityExpMult e.item.Rarity * moldExpMult e.item.Mold)) 0).1 := rfl
      have hse2 : (sellOne e s).1.exp =
          (levelUpGo (levelUpFuel (s.exp + e.item.Price *
              (rarityExpMult e.item.Rarity * moldExpMult e.item.Mold))) s.level
            (s.exp + e.item.Price *
              (rarityExpMult e.item.Rarity * moldExpMult e.item.Mold)) 0).2.1 := rfl
      rw [hse1, hse2]
      have hb : 0 ≤ sellExpAwards now rest := sellExpAwards_nonneg now rest hp'
      have h2 : s.exp + e.item.Price *
            (rarityExpMult e.item.Rarity * moldExpMult e.item.Mold) +
            sellExpAwards now rest <
          (levelUpFuel (s.exp + (e.item.Price *
            (rarityExpMult e.item.Rarity * moldExpMult e.item.Mold) +
            sellExpAwards now rest)) : ℚ) := by
        rw [add_assoc]
        exact lt_levelUpFuel _
      have key2 := levelUpGo_add
        (levelUpFuel (s.exp + e.item.Price *
          (rarityExpMult e.item.Rarity * moldExpMult e.item.Mold)))
        (levelUpFuel (s.exp + (e.item.Price *
          (rarityExpMult e.item.Rarity * moldExpMult e.item.Mold) +
          sellExpAwards now rest)))
        (levelUpFuel ((levelUpGo (levelUpFuel (s.exp + e.item.Price *
            (rarityExpMult e.item.Rarity * moldExpMult e.item.Mold))) s.level
            (s.exp + e.item.Price *
              (rarityExpMult e.item.Rarity * moldExpMult e.item.Mold)) 0).2.1 +
          sellExpAwards now rest))
        s.level
        (s.exp + e.item.Price *
          (rarityExpMult e.item.Rarity * moldExpMult e.item.Mold))
        (sellExpAwards now rest) hb hl (lt_levelUpFuel _) h2 (lt_levelUpFuel _)
      rw [add_assoc] at key2
      exact key2.symm
    · have hawards : sellExpAwards now (e :: rest) = sellExpAwards now rest := by
        simp [sellExpAwards, List.filter_cons, hdue]
      simp only [processSellGo, if_neg hdue]
      rw [hawards]
      exact ih s hl hinv hp'

theorem sellExpAwards_reverse (now : ℚ) (l : List SellEntry) :
    sellExpAwards now l.reverse = sellExpAwards now l := by
  simp [sellExpAwards, List.filter_reverse, List.map_reverse, List.sum_reverse]

/-- C7: a sell-queue tick sells exactly the entries whose delay has elapsed
(`now ≥ enqueuedAt + delaySeconds`), each exactly once, as a batch: the
sold items are the due entries (processed back-to-front), the new queue
keeps exactly the not-yet-due entries in order, each sale adds its price to
money, and the experience added is `price * rarityExpMult * moldExpMult`
per sold item, with level-ups resolved eagerly over the batch. -/
theorem processSellArea_sells_due_batch (s : GameState) (now : ℚ)
    (hl : 1 ≤ s.level) (hinv : s.exp < (requiredExp s.level : ℚ))
    (hp : ∀ e ∈ s.sell_area, 0 ≤ e.item.Price) :
    (processSellArea s now).2.map (fun p => p.1) =
        ((s.sell_area.filter (fun e => decide (e.time_added + e.timer ≤ now))).reverse).map
          (·.item) ∧
      (processSellArea s now).1.sell_area =
        s.sell_area.filter (fun e => !(decide (e.time_added + e.timer ≤ now))) ∧
      (processSellArea s now).1.money =
        s.money + ((s.sell_area.filter
          (fun e => decide (e.time_added + e.timer ≤ now))).map (·.item.Price)).sum ∧
      ((processSellArea s now).1.level, (processSellArea s now).1.exp) =
        ((checkLevelUp { s with exp := s.exp + sellExpAwards now s.sell_area }).1.level,
          (checkLevelUp { s with exp := s.exp + sellExpAwards now s.sell_area }).1.exp) := by
  obtain ⟨h1, h2, h3, h4⟩ := processSellGo_spec now s.sell_area.reverse s
  have h5 := processSellGo_levels now s.sell_area.reverse s hl hinv
    (fun e he => hp e (by simpa using he))
  rw [sellExpAwards_reverse] at h5
  refine ⟨?_, ?_, ?_, ?_⟩
  · rw [List.filter_reverse] at h1
    exact h1
  · rw [List.filter_reverse] at h2
    show (processSellGo now s.sell_area.reverse s).2.2.reverse = _
    rw [h2, List.reverse_reverse]
  · rw [List.filter_reverse, List.map_reverse, List.sum_reverse] at h3
    exact h3
  · exact h5

/-- Fixture for the C7 round trip: one Common/Copper item of price 40,
queued at time 100 with a 30 second delay. -/
def roundTripItem : Item := ⟨5, 1, "Copper", "Common", 40, "Sword", 1, 1⟩

/-- Fresh state holding only the round-trip entry. -/
def roundTripState : GameState :=
  { freshGameState with sell_area := [⟨roundTripItem, 100, 30⟩] }

/-- Witness for C7, the 29/30-second round trip: a tick 29 seconds after
enqueueing returns nothing and leaves the queue alone; the tick at 30
seconds returns exactly the queued item, empties the queue and credits the
price; a later tick returns nothing again (no duplicate resolution). -/
theorem processSellArea_sells_due_batch_witness :
    (processSellArea roundTripState 129).2.map (fun p => p.1) = [] ∧
      (processSellArea roundTripState 129).1.sell_area = roundTripState.sell_area ∧
      (processSellArea roundTripState 130).2.map (fun p => p.1) = [roundTripItem] ∧
      (processSellArea roundTripState 130).1.sell_area = [] ∧
      (processSellArea roundTripState 130).1.money = roundTripState.money + 40 ∧
      (processSellArea (processSellArea roundTripState 130).1 131).2.map
        (fun p => p.1) = [] := by
  have h29 := processSellArea_sells_due_batch roundTripState 129 (by decide)
    (by decide) (by decide)
  have h30 := processSellArea_sells_due_batch roundTripState 130 (by decide)
    (by decide) (by decide)
  have h31 := processSellArea_sells_due_batch (processSellArea roundTripState 130).1
    131 (by decide) (by decide) (by decide)
  exact ⟨h29.1.trans (by decide), (h29.2.1).trans (by decide),
    h30.1.trans (by decide), (h30.2.1).trans (by decide),
    (h30.2.2.1).trans (by decide), h31.1.trans (by decide)⟩

/-- Weapon fixture with `Defense = 0` (damage 1). -/
def zeroDefWeapon : Item := ⟨0, 1, "Copper", "Common", 10, "Sword", 1, 0⟩

/-- Fresh state with the zero-defense weapon equipped. -/
def zeroDefState : GameState := { freshGameState with equipped := some zeroDefWeapon }

/-- Enemy fixture with positive attack (5) and health 100. -/
def infEnemy : Enemy := ⟨"Rare", false, 100, 5, 5, 7, 1⟩

/-- Enemy fixture with attack 0 and health 3. -/
def nanEnemy : Enemy := ⟨"Rare", false, 3, 0, 5, 7, 1⟩

/-- C2 (code bug): the enemy-turn damage `max(0, Math.floor(enemy.damage /
weapon.Defense))` has no guard for `weapon.Defense = 0`: the division by
zero yields `Infinity` for a positive attack — the player takes infinite
damage and is defeated on the first exchange whatever their health — and
`NaN` for attack 0, which makes the loop condition fail and combat end
with "Combat ended unexpectedly" instead of the victory a finite damage
would give; with the claimed guard (defense treated as 1) the per-turn
damages would be the finite integers 5 and 0. -/
theorem fightEnemy_defense_zero_unguarded :
    damageTakenJs 5 0 = JsNum.inf ∧
      damageTakenJs 0 0 = JsNum.nan ∧
      damageTakenJs 5 1 = JsNum.fin 5 ∧
      damageTakenJs 0 1 = JsNum.fin 0 ∧
      (fightEnemy (fun _ => 1) 1000 zeroDefState "Meadow" infEnemy false (0, 0)).map
          (fun r => r.1) =
        some (FightResult.defeat "You were defeated by the Rare!") ∧
      (fightEnemy (fun _ => 1) 1000 zeroDefState "Meadow" nanEnemy false (0, 0)).map
          (fun r => r.1) =
        some (FightResult.defeat "Combat ended unexpectedly.") := by
  exact ⟨by decide, by decide, by decide, by decide, by decide, by decide⟩

theorem enemyLoot_frame (costScale : String → ℚ) (s : GameState) (enemy : Enemy)
    (weaponIdx moldRoll : Nat) :
    (enemyLoot costScale s enemy weaponIdx moldRoll).2.spawned_enemies =
        s.spawned_enemies ∧
      (enemyLoot costScale s enemy weaponIdx moldRoll).2.money = s.money ∧
      (enemyLoot costScale s enemy weaponIdx moldRoll).2.level = s.level ∧
      (enemyLoot costScale s enemy weaponIdx moldRoll).2.exp = s.exp ∧
      (enemyLoot costScale s enemy weaponIdx moldRoll).2.item_storage =
        s.item_storage := by
  unfold enemyLoot
  cases s.recycled_ids.getLast? <;> exact ⟨rfl, rfl, rfl, rfl, rfl⟩


theorem victoryUpdate_missing (costScale : String → ℚ) (areaName : String)
    (enemy : Enemy) (lootRolls : Nat × Nat) (s : GameState)
    (habs : enemy ∉ s.spawned_enemies areaName) :
    (victoryUpdate costScale areaName enemy lootRolls s).2.spawned_enemies =
        s.spawned_enemies ∧
      (victoryUpdate costScale areaName enemy lootRolls s).2.money =
        s.money + enemy.cash ∧
      ((victoryUpdate costScale areaName enemy lootRolls s).2.level,
          (victoryUpdate costScale areaName enemy lootRolls s).2.exp) =
        ((checkLevelUp { s with
            money := s.money + enemy.cash,
            exp := s.exp + enemy.exp }).1.level,
          (checkLevelUp { s with
            money := s.money + enemy.cash,
            exp := s.exp + enemy.exp }).1.exp) ∧
      (victoryUpdate costScale areaName enemy lootRolls s).1.isVictory = true ∧
      ((enemy.Elite || decide (areaName = "Champions Hall")) = false →
        (victoryUpdate costScale areaName enemy lootRolls s).2.item_storage =
            s.item_storage ∧
          (victoryUpdate costScale areaName enemy lootRolls s).1.dropItem =
            none) ∧
      ((enemy.Elite || decide (areaName = "Champions Hall")) = true →
        ∃ d : Item,
          (victoryUpdate costScale areaName enemy lootRolls s).1.dropItem =
              some d ∧
            (victoryUpdate costScale areaName enemy lootRolls s).2.item_storage =
              s.item_storage ++ [d]) := by
  have hfind : ((checkLevelUp { s with
      money := s.money + enemy.cash,
      exp := s.exp + enemy.exp }).1.spawned_enemies areaName).findIdx?
        (fun e => decide (e = enemy)) = none := by
    rw [List.findIdx?_eq_none_iff]
    intro x hx
    simp only [decide_eq_false_iff_not]
    intro hxe
    subst hxe
    exact habs hx
  have hfun : (fun a => if a = areaName then
      (checkLevelUp { s with
        money := s.money + enemy.cash,
        exp := s.exp + enemy.exp }).1.spawned_enemies areaName
      else (checkLevelUp { s with
        money := s.money + enemy.cash,
        exp := s.exp + enemy.exp }).1.spawned_enemies a) =
      s.spawned_enemies := by
    funext a
    by_cases hA : a = areaName
    · rw [if_pos hA, hA]
      rfl
    · rw [if_neg hA]
      rfl
  unfold victoryUpdate
  simp only [hfind]
  by_cases helite : (enemy.Elite || decide (areaName = "Champions Hall")) = true
  · rw [if_pos helite]
    refine ⟨?_, ?_, ?_, rfl, ?_, ?_⟩
    · exact ((enemyLoot_frame costScale _ enemy lootRolls.1 lootRolls.2).1).trans hfun
    · exact (enemyLoot_frame costScale _ enemy lootRolls.1 lootRolls.2).2.1
    · exact Prod.ext (enemyLoot_frame costScale _ enemy lootRolls.1 lootRolls.2).2.2.1
        (enemyLoot_frame costScale _ enemy lootRolls.1 lootRolls.2).2.2.2.1
    · intro hfalse
      rw [hfalse] at helite
      exact absurd helite (by decide)
    · intro _
      refine ⟨_, rfl, ?_⟩
      exact congrArg (· ++ _)
        (enemyLoot_frame costScale _ enemy lootRolls.1 lootRolls.2).2.2.2.2
  · rw [if_neg helite]
    exact ⟨hfun, rfl, rfl, rfl, fun _ => ⟨rfl, rfl⟩,
      fun htrue => absurd htrue helite⟩

theorem fightLoop_missing_enemy (costScale : String → ℚ) (areaName : String)
    (enemy : Enemy) (w : Item) (lootRolls : Nat × Nat) (fuel : Nat) :
    ∀ (s : GameState) (ph : JsNum) (eh : ℚ) (res : FightResult) (s' : GameState),
      enemy ∉ s.spawned_enemies areaName →
      fightLoop costScale areaName enemy w lootRolls fuel s ph eh =
        some (res, s') →
      res.isVictory = true →
      s'.spawned_enemies = s.spawned_enemies ∧
        s'.money = s.money + enemy.cash ∧
        (s'.level, s'.exp) =
          ((checkLevelUp { s with
              money := s.money + enemy.cash,
              exp := s.exp + enemy.exp }).1.level,
            (checkLevelUp { s with
              money := s.money + enemy.cash,
              exp := s.exp + enemy.exp }).1.exp) ∧
        ((enemy.Elite || decide (areaName = "Champions Hall")) = false →
          s'.item_storage = s.item_storage ∧ res.dropItem = none) ∧
        ((enemy.Elite || decide (areaName = "Champions Hall")) = true →
          ∃ d : Item, res.dropItem = some d ∧
            s'.item_storage = s.item_storage ++ [d]) := by
  induction fuel with
  | zero =>
    intro s ph eh res s' _ hrun _
    exact absurd hrun (by simp [fightLoop])
  | succ fuel ih =>
    intro s ph eh res s' habs hrun hvic
    rw [fightLoop] at hrun
    by_cases hcond : (ph.gt0 && decide (0 < eh)) = true
    · rw [if_pos hcond] at hrun
      simp only at hrun
      by_cases hdead : eh - ((⌊w.Damage⌋ : ℤ) : ℚ) ≤ 0
      · rw [if_pos hdead] at hrun
        simp only [Option.some.injEq] at hrun
        have h2 : s' = (victoryUpdate costScale areaName enemy lootRolls s).2 := by
          rw [hrun]
        have h3 : res = (victoryUpdate costScale areaName enemy lootRolls s).1 := by
          rw [hrun]
        have hv := victoryUpdate_missing costScale areaName enemy lootRolls s habs
        rw [h2, h3]
        exact ⟨hv.1, hv.2.1, hv.2.2.1, hv.2.2.2.2.1, hv.2.2.2.2.2⟩
      · rw [if_neg hdead] at hrun
        by_cases hko : (ph.subNum (damageTakenJs enemy.damage w.Defense)).le0 = true
        · rw [if_pos hko] at hrun
          simp only [Option.some.injEq, Prod.mk.injEq] at hrun
          rw [← hrun.1] at hvic
          simp [FightResult.isVictory] at hvic
        · rw [if_neg hko] at hrun
          exact ih s _ _ res s' habs hrun hvic
    · rw [if_neg hcond] at hrun
      simp only [Option.some.injEq, Prod.mk.injEq] at hrun
      rw [← hrun.1] at hvic
      simp [FightResult.isVictory] at hvic

/-- C3 amended: `fightEnemy` does not treat "enemy no longer in the area
list" as a no-op.  When the enemy is absent from the area's spawned list,
the removal step is silently skipped (the spawned lists are unchanged) but
a victorious fight still grants the cash reward and the experience award
with its level-ups, and in the elite / Champions Hall case it still
generates the loot drop and pushes it onto the item storage (with no drop
otherwise). -/
theorem fightEnemy_missing_enemy_rewards_granted (costScale : String → ℚ)
    (fuel : Nat) (s : GameState) (areaName : String) (enemy : Enemy)
    (dropItems : Bool) (lootRolls : Nat × Nat) (w : Item)
    (res : FightResult) (s' : GameState)
    (hw : s.equipped = some w)
    (habs : enemy ∉ s.spawned_enemies areaName)
    (hrun : fightEnemy costScale fuel s areaName enemy dropItems lootRolls =
      some (res, s'))
    (hvic : res.isVictory = true) :
    s'.spawned_enemies = s.spawned_enemies ∧
      s'.money = s.money + enemy.cash ∧
      (s'.level, s'.exp) =
        ((checkLevelUp { s with
            money := s.money + enemy.cash,
            exp := s.exp + enemy.exp }).1.level,
          (checkLevelUp { s with
            money := s.money + enemy.cash,
            exp := s.exp + enemy.exp }).1.exp) ∧
      ((enemy.Elite || decide (areaName = "Champions Hall")) = false →
        s'.item_storage = s.item_storage ∧ res.dropItem = none) ∧
      ((enemy.Elite || decide (areaName = "Champions Hall")) = true →
        ∃ d : Item, res.dropItem = some d ∧
          s'.item_storage = s.item_storage ++ [d]) := by
  rw [fightEnemy, hw] at hrun
  exact fightLoop_missing_enemy costScale areaName enemy w lootRolls fuel
    s (JsNum.fin 100) enemy.health res s' habs hrun hvic

/-- Weapon fixture for the vanished-enemy scenario. -/
def vanishSword : Item := ⟨0, 1, "Copper", "Common", 10, "Sword", 1, 1⟩

/-- Fresh state (money 0, exp 0) with `vanishSword` equipped and every
area's spawned list empty. -/
def vanishedState : GameState := { freshGameState with equipped := some vanishSword }

/-- Enemy fixture that is no longer present in any spawned list. -/
def vanishedEnemy : Enemy := ⟨"Rare", false, 1, 0, 5, 7, 1⟩

/-- Counterexample to C3 as stated: the enemy is absent from the area's
spawned list, yet `fightEnemy` is not a no-op — it returns a victory and
grants the cash (money 0 → 7) and the experience (exp 0 → 5). -/
theorem fightEnemy_missing_enemy_not_noop_cex :
    vanishedEnemy ∉ vanishedState.spawned_enemies "Meadow" ∧
      vanishedState.money = 0 ∧ vanishedState.exp = 0 ∧
      (fightEnemy (fun _ => 1) 10 vanishedState "Meadow" vanishedEnemy false
          (0, 0)).map (fun r => (r.1.isVictory, r.2.money, r.2.exp)) =
        some (true, 7, 5) := by
  exact ⟨by decide, by decide, by decide, by decide⟩

/-- Elite enemy fixture that is no longer present in any spawned list. -/
def vanishedEliteEnemy : Enemy := ⟨"Rare", true, 1, 0, 5, 7, 1⟩

/-- Witness for the amended C3: on the concrete vanished-enemy fights the
spawned lists are unchanged, yet the money reward is still credited, the
non-elite victory drops nothing, and the elite victory still pushes a loot
drop onto the item storage. -/
theorem fightEnemy_missing_enemy_rewards_granted_witness :
    ((fightEnemy (fun _ => 1) 10 vanishedState "Meadow" vanishedEnemy false
        (0, 0)).map (fun r => r.2.money) =
      some (vanishedState.money + vanishedEnemy.cash) ∧
    (fightEnemy (fun _ => 1) 10 vanishedState "Meadow" vanishedEnemy false
        (0, 0)).map (fun r => (r.2.spawned_enemies "Meadow", r.1.dropItem)) =
      some (vanishedState.spawned_enemies "Meadow", none)) ∧
    ((fightEnemy (fun _ => 1) 10 vanishedState "Meadow" vanishedEliteEnemy false
        (0, 0)).map (fun r => r.2.spawned_enemies "Meadow") =
      some (vanishedState.spawned_enemies "Meadow") ∧
    (fightEnemy (fun _ => 1) 10 vanishedState "Meadow" vanishedEliteEnemy false
        (0, 0)).map (fun r => (r.1.dropItem.isSome, r.2.item_storage.length)) =
      some (true, vanishedState.item_storage.length + 1)) := by
  constructor
  · have hm : (fightEnemy (fun _ => 1) 10 vanishedState "Meadow" vanishedEnemy
        false (0, 0)).map (fun r => r.1.isVictory) = some true := by decide
    rcases hres : fightEnemy (fun _ => 1) 10 vanishedState "Meadow" vanishedEnemy
        false (0, 0) with _ | p
    · rw [hres] at hm
      simp at hm
    · obtain ⟨res, s'⟩ := p
      rw [hres] at hm
      have hv : res.isVictory = true := by simpa using hm
      have key := fightEnemy_missing_enemy_rewards_granted (fun _ => 1) 10
        vanishedState "Meadow" vanishedEnemy false (0, 0) vanishSword res s'
        (by decide) (by decide) hres hv
      obtain ⟨hdn1, hdn2⟩ := key.2.2.2.1 (by decide)
      refine ⟨by simpa using key.2.1, ?_⟩
      simp only [Option.map_some']
      rw [key.1, hdn2]
  · have hm : (fightEnemy (fun _ => 1) 10 vanishedState "Meadow"
        vanishedEliteEnemy false (0, 0)).map (fun r => r.1.isVictory) =
        some true := by decide
    rcases hres : fightEnemy (fun _ => 1) 10 vanishedState "Meadow"
        vanishedEliteEnemy false (0, 0) with _ | p
    · rw [hres] at hm
      simp at hm
    · obtain ⟨res, s'⟩ := p
      rw [hres] at hm
      have hv : res.isVictory = true := by simpa using hm
      have key := fightEnemy_missing_enemy_rewards_granted (fun _ => 1) 10
        vanishedState "Meadow" vanishedEliteEnemy false (0, 0) vanishSword res s'
        (by decide) (by decide) hres hv
      obtain ⟨d, hd1, hd2⟩ := key.2.2.2.2 (by decide)
      constructor
      · simp only [Option.map_some']
        rw [key.1]
      · simp only [Option.map_some']
        rw [hd1, hd2]
        simp

theorem fightLoop_total (costScale : String → ℚ) (areaName : String)
    (enemy : Enemy) (w : Item) (lootRolls : Nat × Nat)
    (hd : 1 ≤ ⌊w.Damage⌋) (fuel : Nat) :
    ∀ (s : GameState) (ph : JsNum) (eh : ℚ), eh ≤ (fuel : ℚ) →
      ∃ r, fightLoop costScale areaName enemy w lootRolls (fuel + 1) s ph eh =
        some r := by
  induction fuel with
  | zero =>
    intro s ph eh hb
    have hehe : ¬ (0 < eh) := by
      intro hlt
      norm_num at hb
      linarith
    rw [fightLoop]
    rw [if_neg (by simp [hehe])]
    exact ⟨_, rfl⟩
  | succ fuel ih =>
    intro s ph eh hb
    rw [fightLoop]
    by_cases hcond : (ph.gt0 && decide (0 < eh)) = true
    · rw [if_pos hcond]
      simp only
      by_cases hdead : eh - ((⌊w.Damage⌋ : ℤ) : ℚ) ≤ 0
      · rw [if_pos hdead]
        exact ⟨_, rfl⟩
      · rw [if_neg hdead]
        by_cases hko : (ph.subNum (damageTakenJs enemy.damage w.Defense)).le0 = true
        · rw [if_pos hko]
          exact ⟨_, rfl⟩
        · rw [if_neg hko]
          refine ih s _ (eh - ((⌊w.Damage⌋ : ℤ) : ℚ)) ?_
          have hd1 : (1 : ℚ) ≤ ((⌊w.Damage⌋ : ℤ) : ℚ) := by exact_mod_cast hd
          push_cast at hb ⊢
          linarith
    · rw [if_neg hcond]
      exact ⟨_, rfl⟩

theorem fightLoop_stuck (costScale : String → ℚ) (areaName : String)
    (enemy : Enemy) (w : Item) (lootRolls : Nat × Nat)
    (hd : ⌊w.Damage⌋ ≤ 0)
    (htaken : damageTakenJs enemy.damage w.Defense = JsNum.fin 0) (fuel : Nat) :
    ∀ (s : GameState) (ph eh : ℚ), 0 < ph → 0 < eh →
      fightLoop costScale areaName enemy w lootRolls fuel s (JsNum.fin ph) eh =
        none := by
  induction fuel with
  | zero => intro s ph eh _ _; rfl
  | succ fuel ih =>
    intro s ph eh hph heh
    rw [fightLoop]
    have hcond : ((JsNum.fin ph).gt0 && decide (0 < eh)) = true := by
      simp [JsNum.gt0, hph, heh]
    rw [if_pos hcond]
    simp only
    have hd1 : ((⌊w.Damage⌋ : ℤ) : ℚ) ≤ 0 := by exact_mod_cast hd
    have hdead : ¬ (eh - ((⌊w.Damage⌋ : ℤ) : ℚ) ≤ 0) := by
      intro hc
      linarith
    rw [if_neg hdead, htaken]
    have hsub : (JsNum.fin ph).subNum (JsNum.fin 0) = JsNum.fin (ph - 0) := rfl
    rw [hsub]
    have hko : ¬ ((JsNum.fin (ph - 0)).le0 = true) := by
      simp [JsNum.le0]
      linarith
    rw [if_neg hko]
    exact ih s (ph - 0) (eh - ((⌊w.Damage⌋ : ℤ) : ℚ)) (by linarith) (by linarith)

/-- C10: for every enemy whose health is a positive integer `n` and every
equipped weapon with `floor(Damage) ≥ 1`, the combat loop of `fightEnemy`
reaches a result (fuel `n + 1` suffices, since the enemy's health drops by
`floor(Damage) ≥ 1` every pass); without that precondition — when
`floor(Damage) ≤ 0` and the per-turn damage taken is 0 — the loop never
returns, whatever the fuel. -/
theorem fightEnemy_termination :
    (∀ (costScale : String → ℚ) (s : GameState) (areaName : String)
        (enemy : Enemy) (dropItems : Bool) (lootRolls : Nat × Nat) (w : Item)
        (n : Nat), s.equipped = some w → 1 ≤ ⌊w.Damage⌋ →
        enemy.health = (n : ℚ) →
        ∃ r, fightEnemy costScale (n + 1) s areaName enemy dropItems lootRolls =
          some r) ∧
    (∀ (costScale : String → ℚ) (fuel : Nat) (s : GameState) (areaName : String)
        (enemy : Enemy) (lootRolls : Nat × Nat) (w : Item) (ph eh : ℚ),
        ⌊w.Damage⌋ ≤ 0 →
        damageTakenJs enemy.damage w.Defense = JsNum.fin 0 →
        0 < ph → 0 < eh →
        fightLoop costScale areaName enemy w lootRolls fuel s (JsNum.fin ph) eh =
          none) := by
  constructor
  · intro costScale s areaName enemy dropItems lootRolls w n hw hd hh
    rw [fightEnemy, hw]
    exact fightLoop_total costScale areaName enemy w lootRolls hd n s
      (JsNum.fin 100) enemy.health (by rw [hh])
  · intro costScale fuel s areaName enemy lootRolls w ph eh hd htaken hph heh
    exact fightLoop_stuck costScale areaName enemy w lootRolls hd htaken fuel
      s ph eh hph heh

/-- Witness for C10: the loop finishes within 26 passes for a damage-10
weapon against a 25-health enemy, and never finishes (here at fuel 50) for
a damage-0 weapon against a damage-0, defense-1 match-up. -/
theorem fightEnemy_termination_witness :
    (∃ r, fightEnemy (fun _ => 1) 26
        { freshGameState with equipped := some ⟨0, 1, "Copper", "Common", 10, "Sword", 10, 5⟩ }
        "Meadow" ⟨"Rare", false, 25, 4, 5, 7, 1⟩ false (0, 0) = some r) ∧
    fightLoop (fun _ => 1) "Meadow" ⟨"Rare", false, 25, 0, 5, 7, 1⟩
        ⟨0, 1, "Copper", "Common", 10, "Sword", 0, 1⟩ (0, 0) 50 freshGameState
        (JsNum.fin 100) 25 = none := by
  constructor
  · exact fightEnemy_termination.1 (fun _ => 1)
      { freshGameState with equipped := some ⟨0, 1, "Copper", "Common", 10, "Sword", 10, 5⟩ }
      "Meadow" ⟨"Rare", false, 25, 4, 5, 7, 1⟩ false (0, 0)
      ⟨0, 1, "Copper", "Common", 10, "Sword", 10, 5⟩ 25 rfl (by decide) (by decide)
  · exact fightEnemy_termination.2 (fun _ => 1) 50 freshGameState "Meadow"
      ⟨"Rare", false, 25, 0, 5, 7, 1⟩ (0, 0)
      ⟨0, 1, "Copper", "Common", 10, "Sword", 0, 1⟩ 100 25 (by decide) (by decide)
      (by decide) (by decide)

/-- The cost-scaling curve as a function of the rank from the bottom of the
rarity table: `min(1 + rank^1.25 / 160, 1.85)`. -/
noncomputable def costScaleOfRank (rank : Nat) : ℝ :=
  min (1 + (rank : ℝ) ^ (1.25 : ℝ) / 160) 1.85

theorem getRarityCostScaling_eq (rarityName : String) (idx : Nat)
    (h : RARITY_TIERS.findIdx? (fun r => decide (r.name = rarityName)) = some idx) :
    getRarityCostScaling rarityName =
      costScaleOfRank (RARITY_TIERS.length - idx) := by
  unfold getRarityCostScaling costScaleOfRank
  rw [h]

theorem rpow_125_lt_136 (r : Nat) (hr : r ≤ 22) :
    ((r : ℝ)) ^ (1.25 : ℝ) < 136 := by
  have hle : ((r : ℝ)) ^ (1.25 : ℝ) ≤ ((22 : ℝ)) ^ (1.25 : ℝ) := by
    apply Real.rpow_le_rpow (by positivity) (by exact_mod_cast hr) (by norm_num)
  have h22 : ((22 : ℝ)) ^ (1.25 : ℝ) < 136 := by
    have hpow : (((22 : ℝ)) ^ (1.25 : ℝ)) ^ (4 : ℕ) = (22 : ℝ) ^ (5 : ℕ) := by
      rw [← Real.rpow_natCast (((22 : ℝ)) ^ (1.25 : ℝ)) 4,
        ← Real.rpow_mul (by norm_num : (0 : ℝ) ≤ 22)]
      rw [show ((1.25 : ℝ) * (4 : ℕ) : ℝ) = ((5 : ℕ) : ℝ) by norm_num]
      rw [Real.rpow_natCast]
    have h4 : (((22 : ℝ)) ^ (1.25 : ℝ)) ^ (4 : ℕ) < (136 : ℝ) ^ (4 : ℕ) := by
      rw [hpow]
      norm_num
    exact lt_of_pow_lt_pow_left 4 (by norm_num) h4
  linarith

theorem costScaleOfRank_strict_mono (r1 r2 : Nat) (h1 : 1 ≤ r1) (h12 : r1 < r2)
    (h2 : r2 ≤ 22) : costScaleOfRank r1 < costScaleOfRank r2 := by
  have hu1 : ((r1 : ℝ)) ^ (1.25 : ℝ) < 136 := rpow_125_lt_136 r1 (by omega)
  have hu2 : ((r2 : ℝ)) ^ (1.25 : ℝ) < 136 := rpow_125_lt_136 r2 h2
  have hm1 : costScaleOfRank r1 = 1 + ((r1 : ℝ)) ^ (1.25 : ℝ) / 160 := by
    unfold costScaleOfRank
    rw [min_eq_left (by linarith)]
  have hm2 : costScaleOfRank r2 = 1 + ((r2 : ℝ)) ^ (1.25 : ℝ) / 160 := by
    unfold costScaleOfRank
    rw [min_eq_left (by linarith)]
  have hlt : ((r1 : ℝ)) ^ (1.25 : ℝ) < ((r2 : ℝ)) ^ (1.25 : ℝ) := by
    apply Real.rpow_lt_rpow (by positivity) (by exact_mod_cast h12) (by norm_num)
  rw [hm1, hm2]
  linarith

theorem getRarityCostScaling_le_cap (rarityName : String) :
    getRarityCostScaling rarityName ≤ 1.85 := by
  unfold getRarityCostScaling
  cases RARITY_TIERS.findIdx? (fun r => decide (r.name = rarityName)) with
  | none => norm_num
  | some idx => exact min_le_right _ _

/-- Counterexample to C9 as stated: on a Common/Copper item the code's
price is `4.5 * (1.5 * 0.95) * 1.2 * costScale` — the rarity price
multiplier is damped by 0.95 — and so differs from the spec's
`basePrice * rarityPriceMultiplier * moldPriceMultiplier * costScale`. -/
theorem itemGenPrice_damping_cex :
    itemGenPrice (getTierD MAXIMUM_VALUE RARITY_TIERS 1)
        (getTierD MAXIMUM_VALUE MOLD_TIERS 1) ≠
      specItemPrice (getTierD MAXIMUM_VALUE RARITY_TIERS 1)
        (getTierD MAXIMUM_VALUE MOLD_TIERS 1) := by
  have hrt : (getTierD MAXIMUM_VALUE RARITY_TIERS 1).tier = "Common" := by decide
  have hrv : (getTierD MAXIMUM_VALUE RARITY_TIERS 1).values.getD 0 1 = 1.5 := by
    decide
  have hmv : (getTierD MAXIMUM_VALUE MOLD_TIERS 1).values.getD 0 1 = 1.2 := by
    decide
  have hfi : RARITY_TIERS.findIdx? (fun r => decide (r.name = "Common")) =
      some 21 := by decide
  have hcs : getRarityCostScaling "Common" = costScaleOfRank 1 :=
    getRarityCostScaling_eq "Common" 21 hfi
  have hcs1 : costScaleOfRank 1 = 161 / 160 := by
    unfold costScaleOfRank
    rw [Nat.cast_one, Real.one_rpow, min_eq_left (by norm_num)]
    norm_num
  unfold itemGenPrice specItemPrice
  rw [hrt, hrv, hmv, hcs, hcs1]
  norm_num

/-- C9 amended: the final price of a generated item is `basePrice *
(rarityPriceMultiplier * 0.95) * moldPriceMultiplier *
getRarityCostScaling(rarityName)` — the code damps the rarity multiplier
by 0.95 before composing.  The cost-scaling factor of a table rarity of
index `idx` is `min(1 + rank^1.25 / 160, 1.85)` for the rank
`length - idx` from the bottom; it strictly grows with the rank over the
table's ranks 1..22 and is at most 1.85 for every rarity name. -/
theorem itemGenPrice_composition_and_cap :
    (∀ rarityResult moldResult : TierResult,
      itemGenPrice rarityResult moldResult =
        4.5 * (((rarityResult.values.getD 0 1 : ℚ) : ℝ) * 0.95) *
          ((moldResult.values.getD 0 1 : ℚ) : ℝ) *
          getRarityCostScaling rarityResult.tier) ∧
    (∀ (rarityName : String) (idx : Nat),
      RARITY_TIERS.findIdx? (fun r => decide (r.name = rarityName)) = some idx →
      getRarityCostScaling rarityName =
        costScaleOfRank (RARITY_TIERS.length - idx)) ∧
    (∀ r1 r2 : Nat, 1 ≤ r1 → r1 < r2 → r2 ≤ RARITY_TIERS.length →
      costScaleOfRank r1 < costScaleOfRank r2) ∧
    (∀ rarityName : String, getRarityCostScaling rarityName ≤ 1.85) := by
  refine ⟨fun rr mr => rfl, getRarityCostScaling_eq, ?_,
    getRarityCostScaling_le_cap⟩
  intro r1 r2 h1 h12 h2
  have hlen : RARITY_TIERS.length = 22 := rfl
  exact costScaleOfRank_strict_mono r1 r2 h1 h12 (by omega)

/-- Witness for C9: the Common row's cost scaling is the rank-1 value of
the curve, the curve strictly grows from rank 1 to rank 22, and the Zenith
scaling is within the 1.85 cap. -/
theorem itemGenPrice_composition_and_cap_witness :
    getRarityCostScaling "Common" =
        costScaleOfRank (RARITY_TIERS.length - 21) ∧
      costScaleOfRank 1 < costScaleOfRank 22 ∧
      getRarityCostScaling "Zenith" ≤ 1.85 :=
  ⟨itemGenPrice_composition_and_cap.2.1 "Common" 21 (by decide),
    itemGenPrice_composition_and_cap.2.2.1 1 22 (by decide) (by decide) (by decide),
    itemGenPrice_composition_and_cap.2.2.2 "Zenith"⟩
